import Mathlib

/-!
Verification of the DesignSight rate-limiting core.

This file gives a shallow embedding of the rate-limiting components of the
repository and proves properties of that embedding:

* `src/lib/rate-limiter.ts` — `RateLimiterStore.check`, `checkRateLimit`,
  `checkMultipleRateLimits` (sliding-window rate limiter over an in-process
  keyed store of request logs);
* `src/lib/rate-limit-middleware.ts` — `rateLimitMiddleware` and
  `checkMultipleRateLimitsMiddleware` (fail-open HTTP adapters);
* `src/lib/gemini.ts` — `retryAnalysis` (retry wrapper with
  rate-limit-aware backoff).

Timestamps are JavaScript `Date.now()` millisecond values, modelled as `Int`.
Mutation of the per-key `RequestLog` is modelled by explicit state passing:
`checkLog` returns both the decision result and the new log, and the store
is a function from keys to optional logs.
-/

namespace DesignSight

/-- Policy descriptor, from `RateLimitConfig` in `src/lib/rate-limiter.ts`.
`message` is the optional custom denial message. -/
structure RateLimitConfig where
  windowMs : Int
  maxRequests : Int
  message : Option String := none
  deriving Repr, DecidableEq

/-- Per-key mutable state, from `RequestLog` in `src/lib/rate-limiter.ts`. -/
structure RequestLog where
  count : Nat
  resetTime : Int
  requests : List Int
  deriving Repr, DecidableEq

/-- Decision result, from `RateLimitResult` in `src/lib/rate-limiter.ts`.
`retryAfter` is `none` on success (the field is absent in the source). -/
structure RateLimitResult where
  success : Bool
  limit : Int
  remaining : Int
  reset : Int
  retryAfter : Option Int
  deriving Repr, DecidableEq

/-- `Math.ceil(a / 1000)` for an integer number of milliseconds `a`.
`Int` division by a positive divisor is floor division, so the ceiling is
obtained by negating around it. -/
def ceilDiv1000 (a : Int) : Int := -((-a) / 1000)

/-- The log built by the `Initialize or reset if window expired` branch of
`RateLimiterStore.check`: `{ count: 0, resetTime: now + config.windowMs,
requests: [] }`. -/
def freshLog (config : RateLimitConfig) (now : Int) : RequestLog :=
  { count := 0, resetTime := now + config.windowMs, requests := [] }

/-- The log `check` works on after the lookup step: the stored log, unless
there is none or its `resetTime` has passed, in which case a fresh log
replaces it (`if (!log || log.resetTime <= now)`). -/
def effectiveLog : Option RequestLog → RateLimitConfig → Int → RequestLog
  | none, config, now => freshLog config now
  | some log, config, now => if log.resetTime ≤ now then freshLog config now else log

/-- The pruning step of `check`:
`log.requests.filter(timestamp => timestamp > now - config.windowMs)`. -/
def pruneRequests (requests : List Int) (config : RateLimitConfig) (now : Int) : List Int :=
  requests.filter (fun timestamp => decide (now - config.windowMs < timestamp))

/-- `RateLimiterStore.check` for a single key, with the store interaction
factored out: takes the log currently stored under the key (if any) and the
current time, returns the decision result and the log left in the store.
Translated line by line from `src/lib/rate-limiter.ts`. On the deny branch
the source reads `log.requests[0]`; with an empty pruned list that read is
out of range (the JS result is `undefined`), modelled here by
`List.head?` returning `none`. -/
def checkLog (optLog : Option RequestLog) (config : RateLimitConfig) (now : Int) :
    RateLimitResult × RequestLog :=
  let log := effectiveLog optLog config now
  let pruned := pruneRequests log.requests config now
  let currentCount := pruned.length
  let remaining := max 0 (config.maxRequests - currentCount)
  if config.maxRequests ≤ (currentCount : Int) then
    ({ success := false, limit := config.maxRequests, remaining := 0, reset := log.resetTime,
       retryAfter := pruned.head?.map (fun oldest => ceilDiv1000 (oldest + config.windowMs - now)) },
     { count := log.count, resetTime := log.resetTime, requests := pruned })
  else
    ({ success := true, limit := config.maxRequests, remaining := remaining - 1,
       reset := log.resetTime, retryAfter := none },
     { count := pruned.length + 1, resetTime := log.resetTime, requests := pruned ++ [now] })

/-- The store of `RateLimiterStore`: a map from identity keys to logs. -/
abbrev Store := String → Option RequestLog

/-- The store before any request has been seen. -/
def emptyStore : Store := fun _ => none

/-- `RateLimiterStore.check` at the store level: runs `checkLog` on the log
stored under `key` and writes the resulting log back. -/
def storeCheck (store : Store) (key : String) (config : RateLimitConfig) (now : Int) :
    RateLimitResult × Store :=
  let stepped := checkLog (store key) config now
  (stepped.1, fun k => if k = key then some stepped.2 else store k)

/-- `checkRateLimit` from `src/lib/rate-limiter.ts`: thin façade delegating
to the store. -/
def checkRateLimit (store : Store) (identifier : String) (config : RateLimitConfig) (now : Int) :
    RateLimitResult × Store :=
  storeCheck store identifier config now

/-- The sub-key used by `checkMultipleRateLimits`:
`` `${identifier}:${name}` ``. -/
def rateLimitKey (identifier name : String) : String :=
  identifier ++ ":" ++ name

/-- `checkMultipleRateLimits` from `src/lib/rate-limiter.ts`: evaluates the
named policies in order, each under its own sub-key, and returns the first
failed limit (with the store as mutated so far) or `none` if all pass. -/
def checkMultipleRateLimits (store : Store) (identifier : String)
    (configs : List (String × RateLimitConfig)) (now : Int) :
    Option (String × RateLimitResult) × Store :=
  match configs with
  | [] => (none, store)
  | (name, config) :: rest =>
    let stepped := checkRateLimit store (rateLimitKey identifier name) config now
    if stepped.1.success then checkMultipleRateLimits stepped.2 identifier rest now
    else (some (name, stepped.1), stepped.2)

/-- A sequence of `check` calls for one key starting from log state
`optLog`, at the given call times: returns the list of results and the final
log state. -/
def runChecks (config : RateLimitConfig) :
    Option RequestLog → List Int → List RateLimitResult × Option RequestLog
  | optLog, [] => ([], optLog)
  | optLog, t :: ts =>
    let stepped := checkLog optLog config t
    let rest := runChecks config (some stepped.2) ts
    (stepped.1 :: rest.1, rest.2)

/-- The call times of the calls in a `runChecks` sequence that were allowed
(`success = true`). -/
def allowedTimes (config : RateLimitConfig) :
    Option RequestLog → List Int → List Int
  | _, [] => []
  | optLog, t :: ts =>
    let stepped := checkLog optLog config t
    if stepped.1.success then t :: allowedTimes config (some stepped.2) ts
    else allowedTimes config (some stepped.2) ts

/-- How many of the given timestamps lie in the half-open interval
`(t, t + w]`. -/
def countInWindow (times : List Int) (t w : Int) : Nat :=
  (times.filter (fun x => decide (t < x) && decide (x ≤ t + w))).length

/-! ### HTTP middleware adapters

From `src/lib/rate-limit-middleware.ts`. A middleware call either produces a
structured 429 response value or `null` (the request proceeds), never a
propagated exception: the whole body sits in a `try { .. } catch { return
null }`. Identity resolution (Clerk auth plus IP extraction) is the only
fallible step reaching that catch, so it is modelled as an
`Except String String` input; the `.error` case is routed through the catch.
-/

/-- JavaScript `s || dflt` for an optional string `s`: the empty string is
falsy, so it also selects the fallback. -/
def jsOrString : Option String → String → String
  | none, dflt => dflt
  | some s, dflt => if s = "" then dflt else s

/-- The JSON body of a 429 response built by the middleware. `limitType` is
only present in responses from `checkMultipleRateLimitsMiddleware`. -/
structure ErrorBody where
  error : String
  limitType : Option String
  limit : Int
  remaining : Int
  reset : Int
  retryAfter : Option Int
  deriving Repr, DecidableEq

/-- What a middleware call evaluates to: a 429 response value, or `null`
(`pass`), letting the request proceed. -/
inductive MiddlewareOutcome where
  | throttled (status : Nat) (body : ErrorBody)
  | pass
  deriving Repr, DecidableEq

/-- `rateLimitMiddleware` from `src/lib/rate-limit-middleware.ts`, with the
resolved identity (or the error thrown while resolving it) as input. An
error anywhere in the body is caught and turns into `pass` (fail open),
leaving the store untouched. -/
def rateLimitMiddleware (identity : Except String String) (store : Store)
    (config : RateLimitConfig) (now : Int) : MiddlewareOutcome × Store :=
  match identity with
  | .error _ => (.pass, store)
  | .ok identifier =>
    let stepped := checkRateLimit store identifier config now
    if stepped.1.success then (.pass, stepped.2)
    else
      (.throttled 429
        { error := jsOrString config.message "Rate limit exceeded",
          limitType := none, limit := stepped.1.limit, remaining := stepped.1.remaining,
          reset := stepped.1.reset, retryAfter := stepped.1.retryAfter },
       stepped.2)

/-- `checkMultipleRateLimitsMiddleware` from
`src/lib/rate-limit-middleware.ts`: evaluates all the named limits; on the
first failure builds a 429 whose message comes from the failing policy
(looked up by name, `configs.find(c => c.name === failedLimit.name)`) and
whose body also carries `limitType`. -/
def checkMultipleRateLimitsMiddleware (identity : Except String String) (store : Store)
    (configs : List (String × RateLimitConfig)) (now : Int) : MiddlewareOutcome × Store :=
  match identity with
  | .error _ => (.pass, store)
  | .ok identifier =>
    let stepped := checkMultipleRateLimits store identifier configs now
    match stepped.1 with
    | none => (.pass, stepped.2)
    | some (name, result) =>
      let failedConfig := (configs.find? (fun c => decide (c.1 = name))).map Prod.snd
      (.throttled 429
        { error := jsOrString (failedConfig.bind (fun c => c.message)) "Rate limit exceeded",
          limitType := some name, limit := result.limit, remaining := result.remaining,
          reset := result.reset, retryAfter := result.retryAfter },
       stepped.2)

/-! ### Retry wrapper for the AI call

From `retryAnalysis` in `src/lib/gemini.ts`. The underlying
`analyzeImageWithGemini` call is external I/O; it is modelled as an oracle
`outcomes : Nat → Except String α` giving the outcome of each (1-indexed)
attempt. The waits (`setTimeout`) performed between attempts are recorded in
a trace.
-/

/-- `text` starts with `pat` (on character lists). -/
def leadsWith : List Char → List Char → Bool
  | _, [] => true
  | [], _ :: _ => false
  | a :: as, b :: bs => a == b && leadsWith as bs

/-- `pat` occurs somewhere in `text` (on character lists). -/
def occursIn : List Char → List Char → Bool
  | [], pat => leadsWith [] pat
  | c :: rest, pat => leadsWith (c :: rest) pat || occursIn rest pat

/-- JavaScript `s.includes(pat)`. -/
def strIncludes (s pat : String) : Bool :=
  occursIn s.data pat.data

/-- The rate-limit classification in `retryAnalysis`:
`errorMessage.includes('429') || errorMessage.includes('quota') ||
errorMessage.includes('rate limit')`. -/
def isRateLimitError (msg : String) : Bool :=
  strIncludes msg "429" || strIncludes msg "quota" || strIncludes msg "rate limit"

/-- The message thrown when the final attempt failed with a rate-limit
signal, verbatim from `src/lib/gemini.ts`. -/
def quotaExhaustedMessage : String :=
  "Gemini API rate limit exceeded. Please wait a few minutes before uploading more images, or consider upgrading your API plan for higher limits. Free tier limits: 15 requests per minute, 1,500 requests per day."

/-- The wait performed after a failed attempt when further attempts remain:
`min(60000, 1000 * 2 ** attempt)` for a rate-limit failure, `1000 * attempt`
otherwise. -/
def backoffDelay (isRL : Bool) (attempt : Nat) : Int :=
  if isRL then min 60000 (1000 * (2 : Int) ^ attempt) else 1000 * (attempt : Int)

/-- The observable behaviour of a `retryAnalysis` call: how many attempts
ran, the waits performed between attempts (in order), and the final
outcome. A thrown error is the `.error` case of `outcome`. -/
structure RetryTrace (α : Type) where
  attemptsMade : Nat
  delays : List Int
  outcome : Except String α

/-- The retry loop of `retryAnalysis`, from `src/lib/gemini.ts`:
`for (attempt = 1; attempt <= maxRetries; attempt++)`. `lastError` and the
reversed accumulator of waits thread the loop state; `fuel` counts the loop
iterations still permitted (`maxRetries + 1 - attempt` at every call site),
so running out of fuel is the loop exit, where the source throws the
unassigned `lastError` (`undefined` when no attempt ever ran). -/
def retryLoop {α : Type} (outcomes : Nat → Except String α) (maxRetries : Nat) :
    Nat → Nat → Option String → List Int → RetryTrace α
  | 0, attempt, lastError, delays =>
    { attemptsMade := attempt - 1, delays := delays.reverse,
      outcome := .error (lastError.getD "undefined") }
  | fuel + 1, attempt, _lastError, delays =>
    match outcomes attempt with
    | .ok v => { attemptsMade := attempt, delays := delays.reverse, outcome := .ok v }
    | .error msg =>
      let isRL := isRateLimitError msg
      if attempt < maxRetries then
        retryLoop outcomes maxRetries fuel (attempt + 1) (some msg)
          (backoffDelay isRL attempt :: delays)
      else
        { attemptsMade := attempt, delays := delays.reverse,
          outcome := .error (if isRL then quotaExhaustedMessage else msg) }

/-- `retryAnalysis` from `src/lib/gemini.ts`, over the attempt oracle. The
loop starts at attempt 1 with `maxRetries` iterations available. -/
def retryAnalysis {α : Type} (outcomes : Nat → Except String α) (maxRetries : Nat) :
    RetryTrace α :=
  retryLoop outcomes maxRetries maxRetries 1 none []

/-! ### Basic lemmas about a single `check` call -/

/-- `Math.ceil` of a positive number of milliseconds is at least one second. -/
lemma ceilDiv1000_pos (a : Int) (h : 1 ≤ a) : 1 ≤ ceilDiv1000 a := by
  unfold ceilDiv1000
  have h2 : (-a) / 1000 ≤ (-1) / 1000 := Int.ediv_le_ediv (by norm_num) (by omega)
  have h3 : (-1 : Int) / 1000 = -1 := by decide
  omega

/-- Characterization of the deny branch of `check`. -/
lemma checkLog_deny (optLog : Option RequestLog) (config : RateLimitConfig) (now : Int)
    (h : config.maxRequests ≤
      ((pruneRequests (effectiveLog optLog config now).requests config now).length : Int)) :
    checkLog optLog config now =
      ({ success := false, limit := config.maxRequests, remaining := 0,
         reset := (effectiveLog optLog config now).resetTime,
         retryAfter :=
           (pruneRequests (effectiveLog optLog config now).requests config now).head?.map
             (fun oldest => ceilDiv1000 (oldest + config.windowMs - now)) },
       { count := (effectiveLog optLog config now).count,
         resetTime := (effectiveLog optLog config now).resetTime,
         requests := pruneRequests (effectiveLog optLog config now).requests config now }) := by
  simp only [checkLog]
  rw [if_pos h]

/-- Characterization of the allow branch of `check`. -/
lemma checkLog_allow (optLog : Option RequestLog) (config : RateLimitConfig) (now : Int)
    (h : ((pruneRequests (effectiveLog optLog config now).requests config now).length : Int) <
      config.maxRequests) :
    checkLog optLog config now =
      ({ success := true, limit := config.maxRequests,
         remaining := config.maxRequests -
           (pruneRequests (effectiveLog optLog config now).requests config now).length - 1,
         reset := (effectiveLog optLog config now).resetTime, retryAfter := none },
       { count := (pruneRequests (effectiveLog optLog config now).requests config now).length + 1,
         resetTime := (effectiveLog optLog config now).resetTime,
         requests :=
           pruneRequests (effectiveLog optLog config now).requests config now ++ [now] }) := by
  simp only [checkLog]
  rw [if_neg (not_le.mpr h)]
  have hmax : max 0 (config.maxRequests -
      ((pruneRequests (effectiveLog optLog config now).requests config now).length : Int)) =
      config.maxRequests -
        ((pruneRequests (effectiveLog optLog config now).requests config now).length : Int) :=
    max_eq_right (by omega)
  rw [hmax]

/-- Every timestamp surviving the pruning step is inside the trailing
window. -/
lemma mem_pruneRequests {requests : List Int} {config : RateLimitConfig} {now x : Int}
    (hx : x ∈ pruneRequests requests config now) :
    x ∈ requests ∧ now - config.windowMs < x := by
  have h := List.mem_filter.mp hx
  exact ⟨h.1, by simpa using h.2⟩

/-- The success flag determines which branch of `check` ran. -/
lemma checkLog_success_iff (optLog : Option RequestLog) (config : RateLimitConfig) (now : Int) :
    (checkLog optLog config now).1.success = true ↔
      ((pruneRequests (effectiveLog optLog config now).requests config now).length : Int) <
        config.maxRequests := by
  constructor
  · intro h
    by_contra hc
    rw [checkLog_deny _ _ _ (not_lt.mp hc)] at h
    simp at h
  · intro h
    rw [checkLog_allow _ _ _ h]

/-! ### Claim C2 -/

/-- Claim C2, counterexample. The claim says that when `check` finds
`resetTime ≤ now` it only resets `resetTime`, leaving the `requests`
timestamps unchanged for pruning to handle. In the code the whole log is
replaced by a fresh one with `requests: []`. Concretely, with
`windowMs = 1000`, a stored log `{count 2, resetTime 1000,
requests [0, 999]}` and `now = 1000`: pruning alone would keep timestamp
`999`, but the bookkeeping step empties the log, so the call leaves
`requests = [1000]` instead of `[999, 1000]`. -/
theorem reset_clears_requests_cex :
    pruneRequests [0, 999] { windowMs := 1000, maxRequests := 2 } 1000 = [999]
    ∧ (effectiveLog (some { count := 2, resetTime := 1000, requests := [0, 999] })
        { windowMs := 1000, maxRequests := 2 } 1000).requests = []
    ∧ (checkLog (some { count := 2, resetTime := 1000, requests := [0, 999] })
        { windowMs := 1000, maxRequests := 2 } 1000).2.requests = [1000]
    ∧ ¬ ((checkLog (some { count := 2, resetTime := 1000, requests := [0, 999] })
        { windowMs := 1000, maxRequests := 2 } 1000).2.requests = [999, 1000]) := by
  decide

/-- Claim C2, amended: when `check(key, policy)` finds the key's existing
log has `resetTime ≤ now`, it replaces the log wholesale with a fresh one
(`resetTime = now + windowMs`, `count = 0`, `requests = []`): the stored
timestamp sequence is discarded by this bookkeeping step itself, even for
timestamps the pruning step would have kept, and the call then behaves
exactly as if no log existed for the key. -/
theorem expired_reset_discards_log (log : RequestLog) (config : RateLimitConfig) (now : Int)
    (h : log.resetTime ≤ now) :
    effectiveLog (some log) config now = freshLog config now
    ∧ checkLog (some log) config now = checkLog none config now := by
  refine ⟨?_, ?_⟩
  · simp [effectiveLog, h]
  · simp [checkLog, effectiveLog, h]

/-- Claim C2, witness for the amended theorem at a concrete input. -/
theorem expired_reset_discards_log_witness :
    effectiveLog (some { count := 2, resetTime := 1000, requests := [0, 999] })
        { windowMs := 1000, maxRequests := 2 } 1000 =
      freshLog { windowMs := 1000, maxRequests := 2 } 1000
    ∧ checkLog (some { count := 2, resetTime := 1000, requests := [0, 999] })
        { windowMs := 1000, maxRequests := 2 } 1000 =
      checkLog none { windowMs := 1000, maxRequests := 2 } 1000 :=
  expired_reset_discards_log { count := 2, resetTime := 1000, requests := [0, 999] }
    { windowMs := 1000, maxRequests := 2 } 1000 (by decide)

/-! ### Claim C8 -/

/-- Claim C8, counterexample. The claim says a call with an invalid policy
whose window is non-positive raises immediately at call time. The source
has no validation and no throw path: with `windowMs = -5`,
`maxRequests = 1` and `now = 1000`, `check` proceeds normally and returns
an ordinary allow result (the embedding is a total function precisely
because the source code cannot raise here). -/
theorem nonpositive_window_raises_cex :
    checkLog none { windowMs := -5, maxRequests := 1 } 1000
      = ({ success := true, limit := 1, remaining := 0, reset := 995, retryAfter := none },
         { count := 1, resetTime := 995, requests := [1000] }) := by
  decide

/-- Claim C8, amended: `checkRateLimit` / `store.check` never raises at
all — a denial is a returned value, and even an invalid policy with
non-positive window does not raise: the call proceeds, every stored
past timestamp is pruned (the window test `timestamp > now - windowMs`
is unsatisfiable for past timestamps when `windowMs ≤ 0`), and the call
allows (recording only `now`) when `maxRequests ≥ 1`, or denies with
`retryAfter` absent when `maxRequests ≤ 0`. -/
theorem check_never_raises_nonpositive_window (optLog : Option RequestLog)
    (config : RateLimitConfig) (now : Int) (hW : config.windowMs ≤ 0)
    (hpast : ∀ x ∈ optLog.elim [] RequestLog.requests, x ≤ now) :
    pruneRequests (effectiveLog optLog config now).requests config now = []
    ∧ (1 ≤ config.maxRequests →
        (checkLog optLog config now).1.success = true
        ∧ (checkLog optLog config now).2.requests = [now])
    ∧ (config.maxRequests ≤ 0 →
        (checkLog optLog config now).1
          = { success := false, limit := config.maxRequests, remaining := 0,
              reset := (effectiveLog optLog config now).resetTime, retryAfter := none }) := by
  have hprune : pruneRequests (effectiveLog optLog config now).requests config now = [] := by
    rw [pruneRequests, List.filter_eq_nil_iff]
    intro x hx
    have hxle : x ≤ now := by
      match optLog with
      | none => simp [effectiveLog, freshLog] at hx
      | some log =>
        simp only [effectiveLog] at hx
        by_cases hr : log.resetTime ≤ now
        · rw [if_pos hr] at hx
          simp [freshLog] at hx
        · rw [if_neg hr] at hx
          exact hpast x (by simpa [Option.elim] using hx)
    simp only [decide_eq_true_eq, not_lt]
    omega
  refine ⟨hprune, ?_, ?_⟩
  · intro hN
    rw [checkLog_allow _ _ _ (by rw [hprune]; simpa using by omega)]
    simp [hprune]
  · intro hN
    rw [checkLog_deny _ _ _ (by rw [hprune]; simpa using hN)]
    simp [hprune]

/-- Claim C8, witness for the amended theorem at a concrete input. -/
theorem check_never_raises_nonpositive_window_witness :
    (checkLog (some { count := 1, resetTime := 2000, requests := [400] })
        { windowMs := -5, maxRequests := 1 } 1000).1.success = true
    ∧ (checkLog (some { count := 1, resetTime := 2000, requests := [400] })
        { windowMs := -5, maxRequests := 1 } 1000).2.requests = [1000] :=
  (check_never_raises_nonpositive_window
    (some { count := 1, resetTime := 2000, requests := [400] })
    { windowMs := -5, maxRequests := 1 } 1000 (by decide) (by decide)).2.1 (by decide)

/-! ### Claim C10 -/

/-- Claim C10: whenever `maxRequests ≥ 1` and the deny branch is taken, the
pruned request list is non-empty, so the `requests[0]` read is in bounds
and `retryAfter` is a well-defined integer at least 1; with
`maxRequests ≤ 0` the deny branch is reached with an empty list, and the
`requests[0]` read is out of range (modelled by `List.head? = none`, so
`retryAfter` is absent). -/
theorem deny_oldest_read_in_bounds (optLog : Option RequestLog) (config : RateLimitConfig)
    (now : Int) (hN : 1 ≤ config.maxRequests)
    (hdeny : (checkLog optLog config now).1.success = false) :
    (∃ oldest rest,
      pruneRequests (effectiveLog optLog config now).requests config now = oldest :: rest
      ∧ (checkLog optLog config now).1.retryAfter
          = some (ceilDiv1000 (oldest + config.windowMs - now))
      ∧ 1 ≤ ceilDiv1000 (oldest + config.windowMs - now))
    ∧ (∀ (c : RateLimitConfig) (t : Int), c.maxRequests ≤ 0 →
        (checkLog none c t).1.success = false
        ∧ pruneRequests (effectiveLog none c t).requests c t = []
        ∧ (checkLog none c t).1.retryAfter = none) := by
  constructor
  · have hcount : config.maxRequests ≤
        ((pruneRequests (effectiveLog optLog config now).requests config now).length : Int) := by
      by_contra hc
      rw [checkLog_allow _ _ _ (not_le.mp hc)] at hdeny
      simp at hdeny
    match hpr : pruneRequests (effectiveLog optLog config now).requests config now with
    | [] => rw [hpr] at hcount; simp at hcount; omega
    | oldest :: rest =>
      refine ⟨oldest, rest, rfl, ?_, ?_⟩
      · rw [checkLog_deny _ _ _ hcount, hpr]
        rfl
      · have hmem : oldest ∈ pruneRequests (effectiveLog optLog config now).requests config now :=
          by rw [hpr]; exact List.mem_cons_self _ _
        have := (mem_pruneRequests hmem).2
        exact ceilDiv1000_pos _ (by omega)
  · intro c t hc
    have hprune : pruneRequests (effectiveLog none c t).requests c t = [] := by
      simp [effectiveLog, freshLog, pruneRequests]
    refine ⟨?_, hprune, ?_⟩
    · rw [checkLog_deny _ _ _ (by rw [hprune]; simpa using hc)]
    · rw [checkLog_deny _ _ _ (by rw [hprune]; simpa using hc), hprune]
      rfl

/-- Claim C10, witness at a concrete input: a denied call with
`maxRequests = 1`, one retained timestamp `500`, `windowMs = 1000` and
`now = 1000`. -/
theorem deny_oldest_read_in_bounds_witness :
    ∃ oldest rest,
      pruneRequests (effectiveLog (some { count := 1, resetTime := 2000, requests := [500] })
          { windowMs := 1000, maxRequests := 1 } 1000).requests
          { windowMs := 1000, maxRequests := 1 } 1000 = oldest :: rest
      ∧ (checkLog (some { count := 1, resetTime := 2000, requests := [500] })
          { windowMs := 1000, maxRequests := 1 } 1000).1.retryAfter
          = some (ceilDiv1000 (oldest + 1000 - 1000))
      ∧ 1 ≤ ceilDiv1000 (oldest + 1000 - 1000) :=
  (deny_oldest_read_in_bounds (some { count := 1, resetTime := 2000, requests := [500] })
    { windowMs := 1000, maxRequests := 1 } 1000 (by decide) (by decide)).1

/-! ### Claim C7 -/

/-- Claim C7: the middleware fails open — if identity resolution (or
anything else in the body) throws, the error is caught and the call
evaluates to `pass` (the `null` return), leaving the store untouched, for
both `rateLimitMiddleware` and `checkMultipleRateLimitsMiddleware`; a
policy violation itself is returned as a structured 429 response value
carrying the policy's message, `limit`, `remaining`, `reset` and
`retryAfter`, never as a propagated exception, and an allowed request also
evaluates to `pass`. -/
theorem middleware_fail_open (e : String) (identifier : String) (store : Store)
    (config : RateLimitConfig) (configs : List (String × RateLimitConfig)) (now : Int) :
    rateLimitMiddleware (.error e) store config now = (.pass, store)
    ∧ checkMultipleRateLimitsMiddleware (.error e) store configs now = (.pass, store)
    ∧ ((checkRateLimit store identifier config now).1.success = false →
        rateLimitMiddleware (.ok identifier) store config now
          = (.throttled 429
              { error := jsOrString config.message "Rate limit exceeded",
                limitType := none,
                limit := (checkRateLimit store identifier config now).1.limit,
                remaining := (checkRateLimit store identifier config now).1.remaining,
                reset := (checkRateLimit store identifier config now).1.reset,
                retryAfter := (checkRateLimit store identifier config now).1.retryAfter },
             (checkRateLimit store identifier config now).2))
    ∧ ((checkRateLimit store identifier config now).1.success = true →
        rateLimitMiddleware (.ok identifier) store config now
          = (.pass, (checkRateLimit store identifier config now).2))
    ∧ (∀ name result store2,
        checkMultipleRateLimits store identifier configs now = (some (name, result), store2) →
        checkMultipleRateLimitsMiddleware (.ok identifier) store configs now
          = (.throttled 429
              { error := jsOrString
                  (((configs.find? (fun c => decide (c.1 = name))).map Prod.snd).bind
                    (fun c => c.message)) "Rate limit exceeded",
                limitType := some name, limit := result.limit, remaining := result.remaining,
                reset := result.reset, retryAfter := result.retryAfter }, store2))
    ∧ (∀ store2,
        checkMultipleRateLimits store identifier configs now = (none, store2) →
        checkMultipleRateLimitsMiddleware (.ok identifier) store configs now
          = (.pass, store2)) := by
  refine ⟨rfl, rfl, ?_, ?_, ?_, ?_⟩
  · intro h
    simp only [rateLimitMiddleware, h]
    rfl
  · intro h
    simp only [rateLimitMiddleware, h]
    rfl
  · intro name result store2 h
    simp only [checkMultipleRateLimitsMiddleware, h]
  · intro store2 h
    simp only [checkMultipleRateLimitsMiddleware, h]

/-- Claim C7, witness at a concrete input: a denial (policy with
`maxRequests = 0` and a custom message) comes back as a structured 429
value, and a thrown identity resolution comes back as `pass`. -/
theorem middleware_fail_open_witness :
    (rateLimitMiddleware (.ok "u") emptyStore
        { windowMs := 60000, maxRequests := 0, message := some "Slow down" } 0).1
      = .throttled 429
          { error := "Slow down", limitType := none, limit := 0, remaining := 0,
            reset := 60000, retryAfter := none }
    ∧ (rateLimitMiddleware (.error "auth blew up") emptyStore
        { windowMs := 60000, maxRequests := 0, message := some "Slow down" } 0).1
      = .pass := by
  have h := middleware_fail_open "auth blew up" "u" emptyStore
    { windowMs := 60000, maxRequests := 0, message := some "Slow down" } [] 0
  refine ⟨?_, ?_⟩
  · rw [h.2.2.1 (by decide)]
    decide
  · rw [h.1]

/-! ### Claim C6 -/

/-- The loop of `retryAnalysis` makes at most `maxRetries` attempts, given
fuel accounting for the remaining iterations. -/
lemma retryLoop_attempts_le {α : Type} (outcomes : Nat → Except String α) (maxRetries : Nat) :
    ∀ (fuel attempt : Nat) (lastError : Option String) (acc : List Int),
      fuel + attempt = maxRetries + 1 →
      (retryLoop outcomes maxRetries fuel attempt lastError acc).attemptsMade ≤ maxRetries := by
  intro fuel
  induction fuel with
  | zero =>
    intro attempt lastError acc hfuel
    simp only [retryLoop]
    omega
  | succ fuel ih =>
    intro attempt lastError acc hfuel
    simp only [retryLoop]
    cases houtcome : outcomes attempt with
    | ok v => simp only []; omega
    | error msg =>
      simp only []
      by_cases hlt : attempt < maxRetries
      · rw [if_pos hlt]
        exact ih (attempt + 1) (some msg) _ (by omega)
      · rw [if_neg hlt]
        show attempt ≤ maxRetries
        omega

/-- The waits recorded by the loop of `retryAnalysis` extend the
accumulator with one wait per non-final failed attempt, each computed by
the backoff rule from that attempt's error message. -/
lemma retryLoop_delays_spec {α : Type} (outcomes : Nat → Except String α) (maxRetries : Nat) :
    ∀ (fuel attempt : Nat) (lastError : Option String) (acc : List Int),
      ∃ tail,
        (retryLoop outcomes maxRetries fuel attempt lastError acc).delays
            = acc.reverse ++ tail
        ∧ ∀ i d, tail[i]? = some d →
            ∃ msg, outcomes (attempt + i) = .error msg
              ∧ d = backoffDelay (isRateLimitError msg) (attempt + i)
              ∧ attempt + i < maxRetries := by
  intro fuel
  induction fuel with
  | zero =>
    intro attempt lastError acc
    refine ⟨[], by simp [retryLoop], ?_⟩
    intro i d hd
    simp at hd
  | succ fuel ih =>
    intro attempt lastError acc
    simp only [retryLoop]
    cases houtcome : outcomes attempt with
    | ok v =>
      refine ⟨[], by simp, ?_⟩
      intro i d hd
      simp at hd
    | error msg =>
      simp only []
      by_cases hlt : attempt < maxRetries
      · rw [if_pos hlt]
        obtain ⟨tail, htail, hspec⟩ :=
          ih (attempt + 1) (some msg) (backoffDelay (isRateLimitError msg) attempt :: acc)
        refine ⟨backoffDelay (isRateLimitError msg) attempt :: tail, ?_, ?_⟩
        · rw [htail]
          simp
        · intro i d hd
          match i with
          | 0 =>
            simp only [List.getElem?_cons_zero, Option.some.injEq] at hd
            exact ⟨msg, by simpa using houtcome, by rw [Nat.add_zero, ← hd], by omega⟩
          | i + 1 =>
            simp only [List.getElem?_cons_succ] at hd
            obtain ⟨msg2, hmsg2, hd2, hlt2⟩ := hspec i d hd
            exact ⟨msg2, by rw [show attempt + (i + 1) = attempt + 1 + i by omega]; exact hmsg2,
              by rw [show attempt + (i + 1) = attempt + 1 + i by omega]; exact hd2, by omega⟩
      · rw [if_neg hlt]
        refine ⟨[], by simp, ?_⟩
        intro i d hd
        simp at hd

/-- If every attempt the loop can reach fails, the loop surfaces the final
attempt's error, replaced by the dedicated quota message when that error is
a rate-limit signal. -/
lemma retryLoop_all_fail {α : Type} (outcomes : Nat → Except String α) (maxRetries : Nat) :
    ∀ (fuel attempt : Nat) (lastError : Option String) (acc : List Int),
      fuel + attempt = maxRetries + 1 → attempt ≤ maxRetries →
      (∀ a, attempt ≤ a → a ≤ maxRetries → ∃ msg, outcomes a = .error msg) →
      ∃ msg, outcomes maxRetries = .error msg
        ∧ (retryLoop outcomes maxRetries fuel attempt lastError acc).outcome
            = .error (if isRateLimitError msg then quotaExhaustedMessage else msg) := by
  intro fuel
  induction fuel with
  | zero =>
    intro attempt lastError acc hfuel hle hfail
    omega
  | succ fuel ih =>
    intro attempt lastError acc hfuel hle hfail
    obtain ⟨msg, hmsg⟩ := hfail attempt le_rfl hle
    simp only [retryLoop, hmsg]
    by_cases hlt : attempt < maxRetries
    · rw [if_pos hlt]
      exact ih (attempt + 1) (some msg) _ (by omega) (by omega)
        (fun a ha1 ha2 => hfail a (by omega) ha2)
    · rw [if_neg hlt]
      have hend : attempt = maxRetries := by omega
      subst hend
      exact ⟨msg, hmsg, rfl⟩

/-- Claim C6: `retryAnalysis` attempts the analysis at most `maxRetries`
times; each wait it performs follows a failed non-final attempt and equals
`min(60000, 1000·2^attempt)` ms when that attempt's error contains `429`,
`quota` or `rate limit`, and `1000·attempt` ms otherwise; when all attempts
fail, the surfaced error is the final attempt's error, except that a final
rate-limit failure is replaced by the dedicated quota-exhaustion message,
which explicitly indicates the rate limit was exceeded. -/
theorem retryAnalysis_backoff_and_exhaustion {α : Type} (outcomes : Nat → Except String α)
    (maxRetries : Nat) (hpos : 1 ≤ maxRetries) :
    (retryAnalysis outcomes maxRetries).attemptsMade ≤ maxRetries
    ∧ (∀ i d, (retryAnalysis outcomes maxRetries).delays[i]? = some d →
        ∃ msg, outcomes (i + 1) = .error msg
          ∧ d = (if isRateLimitError msg then min 60000 (1000 * (2 : Int) ^ (i + 1))
              else 1000 * ((i + 1 : Nat) : Int))
          ∧ i + 1 < maxRetries)
    ∧ ((∀ a, 1 ≤ a → a ≤ maxRetries → ∃ msg, outcomes a = .error msg) →
        ∃ msg, outcomes maxRetries = .error msg
          ∧ (retryAnalysis outcomes maxRetries).outcome
              = .error (if isRateLimitError msg then quotaExhaustedMessage else msg))
    ∧ strIncludes quotaExhaustedMessage "rate limit exceeded" = true := by
  refine ⟨?_, ?_, ?_, by decide⟩
  · exact retryLoop_attempts_le outcomes maxRetries maxRetries 1 none [] (by omega)
  · intro i d hd
    obtain ⟨tail, htail, hspec⟩ := retryLoop_delays_spec outcomes maxRetries maxRetries 1 none []
    rw [retryAnalysis, htail] at hd
    simp only [List.reverse_nil, List.nil_append] at hd
    obtain ⟨msg, hmsg, hd2, hlt2⟩ := hspec i d hd
    rw [show 1 + i = i + 1 by omega] at hmsg hd2 hlt2
    exact ⟨msg, hmsg, by rw [hd2]; rfl, hlt2⟩
  · intro hfail
    exact retryLoop_all_fail outcomes maxRetries maxRetries 1 none [] (by omega) hpos hfail

/-- Claim C6, witness: three attempts that always fail with a quota error
make exactly the allowed number of attempts. -/
theorem retryAnalysis_backoff_and_exhaustion_witness :
    (retryAnalysis (fun _ => (Except.error "quota exceeded" : Except String Nat)) 2).attemptsMade
      ≤ 2 :=
  (retryAnalysis_backoff_and_exhaustion
    (fun _ => (Except.error "quota exceeded" : Except String Nat)) 2 (by decide)).1

/-! ### Claim C5 -/

/-- The store after evaluating the given policies in order, regardless of
outcomes: describes the intermediate stores that `checkMultipleRateLimits`
threads through its loop. -/
def threadChecks (store : Store) (identifier : String)
    (configs : List (String × RateLimitConfig)) (now : Int) : Store :=
  configs.foldl (fun s nc => (checkRateLimit s (rateLimitKey identifier nc.1) nc.2 now).2) store

/-- Every named policy in the list allows the request when evaluated in
order (specification-side description of the all-pass case of
`checkMultipleRateLimits`). -/
def allPoliciesAllowed (store : Store) (identifier : String)
    (configs : List (String × RateLimitConfig)) (now : Int) : Bool :=
  match configs with
  | [] => true
  | (name, config) :: rest =>
    (checkRateLimit store (rateLimitKey identifier name) config now).1.success
      && allPoliciesAllowed (checkRateLimit store (rateLimitKey identifier name) config now).2
          identifier rest now

/-- Distinct policy names give distinct sub-keys under one identifier. -/
lemma rateLimitKey_inj (identifier : String) {n1 n2 : String}
    (h : rateLimitKey identifier n1 = rateLimitKey identifier n2) : n1 = n2 := by
  have hd := congrArg String.data h
  simp [rateLimitKey, String.data_append] at hd
  exact String.ext hd

/-- A `check` call leaves every other key of the store untouched. -/
lemma storeCheck_apply_ne (store : Store) (key : String) (config : RateLimitConfig) (now : Int)
    {k : String} (h : k ≠ key) : (storeCheck store key config now).2 k = store k := by
  simp [storeCheck, h]

/-- A `check` call stores the stepped log under its own key. -/
lemma storeCheck_apply_self (store : Store) (key : String) (config : RateLimitConfig)
    (now : Int) : (storeCheck store key config now).2 key = some (checkLog (store key) config now).2 := by
  simp [storeCheck]

/-- Threading policies whose sub-keys avoid `k` leaves `k` untouched. -/
lemma threadChecks_apply_ne (identifier : String) (now : Int) :
    ∀ (configs : List (String × RateLimitConfig)) (store : Store) (k : String),
      (∀ nc ∈ configs, rateLimitKey identifier nc.1 ≠ k) →
      threadChecks store identifier configs now k = store k := by
  intro configs
  induction configs with
  | nil => intro store k _; rfl
  | cons nc rest ih =>
    intro store k hk
    rw [threadChecks, List.foldl_cons]
    have hstep := ih ((checkRateLimit store (rateLimitKey identifier nc.1) nc.2 now).2) k
      (fun nc2 hnc2 => hk nc2 (List.mem_cons_of_mem _ hnc2))
    rw [threadChecks] at hstep
    rw [hstep]
    exact storeCheck_apply_ne _ _ _ _ (fun heq => hk nc (List.mem_cons_self _ _) (heq ▸ rfl))

/-- An allowed `check` appends `now` to the log it stores back. -/
lemma checkLog_allow_requests (optLog : Option RequestLog) (config : RateLimitConfig) (now : Int)
    (h : (checkLog optLog config now).1.success = true) :
    (checkLog optLog config now).2.requests
      = pruneRequests (effectiveLog optLog config now).requests config now ++ [now] := by
  have hlt := (checkLog_success_iff optLog config now).mp h
  rw [checkLog_allow _ _ _ hlt]

/-- `checkMultipleRateLimits` returns `none` exactly when every policy in
the list allowed the request. -/
lemma checkMultiple_none_iff (identifier : String) (now : Int) :
    ∀ (configs : List (String × RateLimitConfig)) (store : Store),
      (checkMultipleRateLimits store identifier configs now).1 = none
        ↔ allPoliciesAllowed store identifier configs now = true := by
  intro configs
  induction configs with
  | nil => intro store; simp [checkMultipleRateLimits, allPoliciesAllowed]
  | cons nc rest ih =>
    intro store
    obtain ⟨name, config⟩ := nc
    simp only [checkMultipleRateLimits, allPoliciesAllowed]
    by_cases hs : (checkRateLimit store (rateLimitKey identifier name) config now).1.success
    · rw [if_pos hs, hs]
      simpa using ih _
    · rw [if_neg hs]
      simp only [Bool.and_eq_true]
      constructor
      · intro h; simp at h
      · intro h
        exact absurd h.1 hs

/-- `checkMultipleRateLimits` short-circuits at the first failed policy:
when all of `pre` pass and the policy `(name, cfg)` then fails, the result
is that failure and the store reflects only `pre`'s checks and that failing
check — the policies in `post` are not evaluated. -/
lemma checkMultiple_first_fail (identifier : String) (now : Int) (name : String)
    (cfg : RateLimitConfig) (post : List (String × RateLimitConfig)) :
    ∀ (pre : List (String × RateLimitConfig)) (store : Store),
      allPoliciesAllowed store identifier pre now = true →
      (checkRateLimit (threadChecks store identifier pre now)
        (rateLimitKey identifier name) cfg now).1.success = false →
      checkMultipleRateLimits store identifier (pre ++ (name, cfg) :: post) now
        = (some (name,
            (checkRateLimit (threadChecks store identifier pre now)
              (rateLimitKey identifier name) cfg now).1),
          (checkRateLimit (threadChecks store identifier pre now)
            (rateLimitKey identifier name) cfg now).2) := by
  intro pre
  induction pre with
  | nil =>
    intro store _ hfail
    have hfail2 : (checkRateLimit store (rateLimitKey identifier name) cfg now).1.success
        = false := hfail
    simp only [List.nil_append, checkMultipleRateLimits]
    rw [if_neg (by simp [hfail2])]
    rfl
  | cons p pre ih =>
    intro store hpre hfail
    obtain ⟨pn, pc⟩ := p
    simp only [allPoliciesAllowed, Bool.and_eq_true] at hpre
    simp only [List.cons_append, checkMultipleRateLimits]
    rw [if_pos hpre.1]
    have hthread : threadChecks store identifier ((pn, pc) :: pre) now
        = threadChecks (checkRateLimit store (rateLimitKey identifier pn) pc now).2
            identifier pre now := by
      rw [threadChecks, List.foldl_cons]; rfl
    rw [hthread] at hfail
    exact ih _ hpre.2 hfail

/-- Every policy evaluated (and passed) before the failing one has already
recorded the request under its own sub-key: in the store produced by the
failing composite call, its log's last timestamp is `now`. -/
lemma checkMultiple_pre_recorded (identifier : String) (now : Int) (name : String)
    (cfg : RateLimitConfig) :
    ∀ (pre : List (String × RateLimitConfig)) (store : Store),
      (pre.map Prod.fst).Nodup →
      name ∉ pre.map Prod.fst →
      allPoliciesAllowed store identifier pre now = true →
      ∀ p ∈ pre, ∃ l,
        (checkRateLimit (threadChecks store identifier pre now)
          (rateLimitKey identifier name) cfg now).2 (rateLimitKey identifier p.1) = some l
        ∧ l.requests.getLast? = some now := by
  intro pre
  induction pre with
  | nil => intro store _ _ _ p hp; simp at hp
  | cons q pre ih =>
    intro store hnodup hname hpre p hp
    obtain ⟨qn, qc⟩ := q
    simp only [allPoliciesAllowed, Bool.and_eq_true] at hpre
    have hthread : threadChecks store identifier ((qn, qc) :: pre) now
        = threadChecks (checkRateLimit store (rateLimitKey identifier qn) qc now).2
            identifier pre now := by
      rw [threadChecks, List.foldl_cons]; rfl
    rcases List.mem_cons.mp hp with hpq | hptail
    · subst hpq
      -- the head policy's own write survives all later checks
      have hqname : name ≠ qn := by
        intro h; exact hname (by simp [h])
      have hkeys_pre : ∀ nc ∈ pre, rateLimitKey identifier nc.1 ≠ rateLimitKey identifier qn := by
        intro nc hnc heq
        have : nc.1 = qn := rateLimitKey_inj identifier heq
        have : qn ∈ pre.map Prod.fst := by
          rw [← this]; exact List.mem_map_of_mem _ hnc
        simp only [List.map_cons, List.nodup_cons] at hnodup
        exact hnodup.1 this
      have hfinal : (checkRateLimit (threadChecks store identifier ((qn, qc) :: pre) now)
          (rateLimitKey identifier name) cfg now).2 (rateLimitKey identifier qn)
          = threadChecks store identifier ((qn, qc) :: pre) now (rateLimitKey identifier qn) :=
        storeCheck_apply_ne _ _ _ _
          (fun heq => hqname (rateLimitKey_inj identifier heq).symm)
      rw [hfinal, hthread]
      have hmid := threadChecks_apply_ne identifier now pre
        ((checkRateLimit store (rateLimitKey identifier qn) qc now).2)
        (rateLimitKey identifier qn) hkeys_pre
      rw [hmid]
      rw [show (checkRateLimit store (rateLimitKey identifier qn) qc now).2
          = (storeCheck store (rateLimitKey identifier qn) qc now).2 from rfl]
      rw [storeCheck_apply_self]
      refine ⟨_, rfl, ?_⟩
      rw [checkLog_allow_requests _ _ _ hpre.1]
      exact List.getLast?_concat _
    · -- a later pre policy: apply the induction hypothesis after the head's check
      have hnodup2 : (pre.map Prod.fst).Nodup := by
        simp only [List.map_cons, List.nodup_cons] at hnodup
        exact hnodup.2
      have hname2 : name ∉ pre.map Prod.fst := by
        intro h; exact hname (List.mem_cons_of_mem _ h)
      have := ih ((checkRateLimit store (rateLimitKey identifier qn) qc now).2)
        hnodup2 hname2 hpre.2 p hptail
      rw [hthread]
      exact this

/-- Claim C5: `checkMultipleRateLimits` evaluates the policies strictly in
the order given, keying each policy's counter by
`identifier + ':' + name` (distinct names can never share a counter); it
returns the first violated `(name, result)` without evaluating any later
policy (the store reflects exactly the checks before and including the
failure); it returns `none` exactly when every policy allowed the request;
and every policy evaluated before the failing one has already recorded the
request in its own counter even though the composite result is a denial. -/
theorem multi_policy_first_failure (store : Store) (identifier : String) (now : Int)
    (pre : List (String × RateLimitConfig)) (name : String) (cfg : RateLimitConfig)
    (post : List (String × RateLimitConfig))
    (hnodup : ((pre ++ (name, cfg) :: post).map Prod.fst).Nodup)
    (hpre : allPoliciesAllowed store identifier pre now = true)
    (hfail : (checkRateLimit (threadChecks store identifier pre now)
      (rateLimitKey identifier name) cfg now).1.success = false) :
    (∀ n1 n2 : String,
      rateLimitKey identifier n1 = rateLimitKey identifier n2 → n1 = n2)
    ∧ (∀ (configs : List (String × RateLimitConfig)) (store2 : Store),
        (checkMultipleRateLimits store2 identifier configs now).1 = none
          ↔ allPoliciesAllowed store2 identifier configs now = true)
    ∧ checkMultipleRateLimits store identifier (pre ++ (name, cfg) :: post) now
        = (some (name,
            (checkRateLimit (threadChecks store identifier pre now)
              (rateLimitKey identifier name) cfg now).1),
          (checkRateLimit (threadChecks store identifier pre now)
            (rateLimitKey identifier name) cfg now).2)
    ∧ (∀ p ∈ pre, ∃ l,
        (checkRateLimit (threadChecks store identifier pre now)
          (rateLimitKey identifier name) cfg now).2 (rateLimitKey identifier p.1) = some l
        ∧ l.requests.getLast? = some now) := by
  refine ⟨fun n1 n2 => rateLimitKey_inj identifier,
    fun configs store2 => checkMultiple_none_iff identifier now configs store2,
    checkMultiple_first_fail identifier now name cfg post pre store hpre hfail, ?_⟩
  have hmap : (pre ++ (name, cfg) :: post).map Prod.fst
      = pre.map Prod.fst ++ (name :: post.map Prod.fst) := by
    simp
  rw [hmap] at hnodup
  rw [List.nodup_append] at hnodup
  exact checkMultiple_pre_recorded identifier now name cfg pre store hnodup.1
    (fun h => hnodup.2.2 h (by simp)) hpre

/-- Claim C5, witness at a concrete input: with a passing per-minute policy
followed by an exhausted daily policy (limit 0) and a further policy, the
composite reports the daily failure without evaluating the third policy. -/
theorem multi_policy_first_failure_witness :
    (checkMultipleRateLimits emptyStore "user:1"
        [("minute", { windowMs := 60000, maxRequests := 5 }),
         ("daily", { windowMs := 86400000, maxRequests := 0 }),
         ("burst", { windowMs := 1000, maxRequests := 1 })] 0).1
      = some ("daily",
          { success := false, limit := 0, remaining := 0, reset := 86400000,
            retryAfter := none }) := by
  have h := multi_policy_first_failure emptyStore "user:1" 0
    [("minute", { windowMs := 60000, maxRequests := 5 })]
    "daily" { windowMs := 86400000, maxRequests := 0 }
    [("burst", { windowMs := 1000, maxRequests := 1 })]
    (by decide) (by decide) (by decide)
  rw [show ([("minute", ({ windowMs := 60000, maxRequests := 5 } : RateLimitConfig)),
      ("daily", { windowMs := 86400000, maxRequests := 0 }),
      ("burst", { windowMs := 1000, maxRequests := 1 })] :
        List (String × RateLimitConfig))
    = [("minute", { windowMs := 60000, maxRequests := 5 })]
      ++ ("daily", { windowMs := 86400000, maxRequests := 0 })
        :: [("burst", { windowMs := 1000, maxRequests := 1 })] from rfl]
  rw [h.2.2.1]
  decide

/-! ### Single-window runs: lemmas for the admission bound and the
remaining sequence -/

/-- A log whose `resetTime` is still in the future is kept as-is by the
lookup step. -/
lemma effectiveLog_no_reset (log : RequestLog) (config : RateLimitConfig) (now : Int)
    (h : now < log.resetTime) : effectiveLog (some log) config now = log := by
  simp [effectiveLog, not_le.mpr h]

/-- Pruning removes nothing when every stored timestamp is still inside
the trailing window. -/
lemma pruneRequests_eq_self {requests : List Int} {config : RateLimitConfig} {now : Int}
    (h : ∀ x ∈ requests, now - config.windowMs < x) :
    pruneRequests requests config now = requests := by
  rw [pruneRequests, List.filter_eq_self]
  intro a ha
  simpa using h a ha

/-- An in-window `check` (no reset, nothing pruned) on a log with spare
capacity: allows and appends `now`. -/
lemma checkLog_inWindow_allow (c : Nat) (t1 : Int) (reqs : List Int)
    (config : RateLimitConfig) (t : Int)
    (hreq : ∀ x ∈ reqs, t - config.windowMs < x) (ht : t < t1 + config.windowMs)
    (hlen : (reqs.length : Int) < config.maxRequests) :
    checkLog (some ⟨c, t1 + config.windowMs, reqs⟩) config t
      = ({ success := true, limit := config.maxRequests,
           remaining := config.maxRequests - reqs.length - 1,
           reset := t1 + config.windowMs, retryAfter := none },
         ⟨reqs.length + 1, t1 + config.windowMs, reqs ++ [t]⟩) := by
  have hel : effectiveLog (some ⟨c, t1 + config.windowMs, reqs⟩) config t
      = ⟨c, t1 + config.windowMs, reqs⟩ := effectiveLog_no_reset _ _ _ (by simpa using ht)
  have hpr : pruneRequests reqs config t = reqs := pruneRequests_eq_self hreq
  rw [checkLog_allow _ _ _ (by rw [hel]; simpa [hpr] using hlen)]
  rw [hel]
  simp [hpr]

/-- An in-window `check` (no reset, nothing pruned) on a log already at
capacity: denies and leaves the log unchanged. -/
lemma checkLog_inWindow_deny (c : Nat) (t1 : Int) (reqs : List Int)
    (config : RateLimitConfig) (t : Int)
    (hreq : ∀ x ∈ reqs, t - config.windowMs < x) (ht : t < t1 + config.windowMs)
    (hlen : config.maxRequests ≤ (reqs.length : Int)) :
    checkLog (some ⟨c, t1 + config.windowMs, reqs⟩) config t
      = ({ success := false, limit := config.maxRequests, remaining := 0,
           reset := t1 + config.windowMs,
           retryAfter := reqs.head?.map (fun oldest =>
             ceilDiv1000 (oldest + config.windowMs - t)) },
         ⟨c, t1 + config.windowMs, reqs⟩) := by
  have hel : effectiveLog (some ⟨c, t1 + config.windowMs, reqs⟩) config t
      = ⟨c, t1 + config.windowMs, reqs⟩ := effectiveLog_no_reset _ _ _ (by simpa using ht)
  have hpr : pruneRequests reqs config t = reqs := pruneRequests_eq_self hreq
  rw [checkLog_deny _ _ _ (by rw [hel]; simpa [hpr] using hlen)]
  rw [hel]
  simp [hpr]

/-- The very first `check` for a key (no stored log) allows whenever
`maxRequests` is positive, recording only its own call time. -/
lemma checkLog_first (config : RateLimitConfig) (t1 : Int) (hN : 0 < config.maxRequests) :
    checkLog none config t1
      = ({ success := true, limit := config.maxRequests,
           remaining := config.maxRequests - 1, reset := t1 + config.windowMs,
           retryAfter := none },
         ⟨1, t1 + config.windowMs, [t1]⟩) := by
  rw [checkLog_allow none config t1
    (by simp [effectiveLog, freshLog, pruneRequests]; omega)]
  simp [effectiveLog, freshLog, pruneRequests]

/-- Inside a single nominal window the limiter admits at most the spare
capacity of the incoming log: with all the call times below
`t1 + windowMs` (so no reset fires) and a log whose timestamps lie between
`t1` and the current time, the number of allowed calls is bounded by
`maxRequests` minus the number of already-recorded timestamps. -/
lemma allowedTimes_singleWindow (config : RateLimitConfig) (t1 : Int) :
    ∀ (ts : List Int) (tcur : Int) (c : Nat) (reqs : List Int),
      0 < config.windowMs → t1 ≤ tcur →
      List.Chain (· ≤ ·) tcur ts →
      (∀ x ∈ reqs, t1 ≤ x ∧ x ≤ tcur) →
      (∀ s ∈ ts, s < t1 + config.windowMs) →
      (allowedTimes config (some ⟨c, t1 + config.windowMs, reqs⟩) ts).length
        ≤ config.maxRequests.toNat - reqs.length := by
  intro ts
  induction ts with
  | nil =>
    intro tcur c reqs _ _ _ _ _
    simp [allowedTimes]
  | cons t ts ih =>
    intro tcur c reqs hW ht1 hchain hreqs hwin
    have hct := List.chain_cons.mp hchain
    have htwin : t < t1 + config.windowMs := hwin t (List.mem_cons_self _ _)
    have hreq2 : ∀ x ∈ reqs, t - config.windowMs < x := by
      intro x hx
      have := (hreqs x hx).1
      omega
    simp only [allowedTimes]
    by_cases hcase : (reqs.length : Int) < config.maxRequests
    · rw [checkLog_inWindow_allow c t1 reqs config t hreq2 htwin hcase]
      show (t :: allowedTimes config
        (some ⟨reqs.length + 1, t1 + config.windowMs, reqs ++ [t]⟩) ts).length
          ≤ config.maxRequests.toNat - reqs.length
      have hrec := ih t (reqs.length + 1) (reqs ++ [t]) hW (by omega) hct.2
        (by
          intro x hx
          rcases List.mem_append.mp hx with h1 | h2
          · exact ⟨(hreqs x h1).1, le_trans (hreqs x h1).2 hct.1⟩
          · simp only [List.mem_singleton] at h2
            exact ⟨by omega, h2.le⟩)
        (fun s hs => hwin s (List.mem_cons_of_mem _ hs))
      simp only [List.length_append, List.length_singleton] at hrec
      simp only [List.length_cons]
      omega
    · rw [checkLog_inWindow_deny c t1 reqs config t hreq2 htwin (not_lt.mp hcase)]
      show (allowedTimes config (some ⟨c, t1 + config.windowMs, reqs⟩) ts).length
          ≤ config.maxRequests.toNat - reqs.length
      exact ih t c reqs hW (by omega) hct.2
        (fun x hx => ⟨(hreqs x hx).1, le_trans (hreqs x hx).2 hct.1⟩)
        (fun s hs => hwin s (List.mem_cons_of_mem _ hs))

/-- Inside a single nominal window the `check` results follow the counting
regime exactly: the call at position `i` (with the incoming log holding
`reqs.length` timestamps) succeeds precisely while `reqs.length + i` is
below `maxRequests`, and its `remaining` is the leftover capacity after
it, `0` on denial. -/
lemma runChecks_singleWindow (config : RateLimitConfig) (t1 : Int) :
    ∀ (ts : List Int) (tcur : Int) (c : Nat) (reqs : List Int),
      0 < config.windowMs → t1 ≤ tcur →
      List.Chain (· ≤ ·) tcur ts →
      (∀ x ∈ reqs, t1 ≤ x ∧ x ≤ tcur) →
      (∀ s ∈ ts, s < t1 + config.windowMs) →
      ∀ i r, ((runChecks config (some ⟨c, t1 + config.windowMs, reqs⟩) ts).1)[i]? = some r →
        r.success = decide (((reqs.length + i : Nat) : Int) < config.maxRequests)
        ∧ r.remaining = if (((reqs.length + i : Nat) : Int) < config.maxRequests)
            then config.maxRequests - ((reqs.length + i : Nat) : Int) - 1 else 0 := by
  intro ts
  induction ts with
  | nil =>
    intro tcur c reqs _ _ _ _ _ i r hr
    simp [runChecks] at hr
  | cons t ts ih =>
    intro tcur c reqs hW ht1 hchain hreqs hwin i r hr
    have hct := List.chain_cons.mp hchain
    have htwin : t < t1 + config.windowMs := hwin t (List.mem_cons_self _ _)
    have hreq2 : ∀ x ∈ reqs, t - config.windowMs < x := by
      intro x hx
      have := (hreqs x hx).1
      omega
    simp only [runChecks] at hr
    by_cases hcase : (reqs.length : Int) < config.maxRequests
    · rw [checkLog_inWindow_allow c t1 reqs config t hreq2 htwin hcase] at hr
      match i with
      | 0 =>
        simp only [List.getElem?_cons_zero, Option.some.injEq] at hr
        subst hr
        refine ⟨?_, ?_⟩
        · simp only [Nat.add_zero]
          exact (decide_eq_true hcase).symm
        · simp only [Nat.add_zero, if_pos hcase]
      | i + 1 =>
        simp only [List.getElem?_cons_succ] at hr
        have hrec := ih t (reqs.length + 1) (reqs ++ [t]) hW (by omega) hct.2
          (by
            intro x hx
            rcases List.mem_append.mp hx with h1 | h2
            · exact ⟨(hreqs x h1).1, le_trans (hreqs x h1).2 hct.1⟩
            · simp only [List.mem_singleton] at h2
              exact ⟨by omega, h2.le⟩)
          (fun s hs => hwin s (List.mem_cons_of_mem _ hs)) i r hr
        rw [show (reqs ++ [t]).length + i = reqs.length + (i + 1) by simp; omega] at hrec
        exact hrec
    · rw [checkLog_inWindow_deny c t1 reqs config t hreq2 htwin (not_lt.mp hcase)] at hr
      match i with
      | 0 =>
        simp only [List.getElem?_cons_zero, Option.some.injEq] at hr
        subst hr
        refine ⟨?_, ?_⟩
        · simp only [Nat.add_zero]
          exact (decide_eq_false hcase).symm
        · simp only [Nat.add_zero, if_neg hcase]
      | i + 1 =>
        simp only [List.getElem?_cons_succ] at hr
        obtain ⟨hs, hrem⟩ := ih t c reqs hW (by omega) hct.2
          (fun x hx => ⟨(hreqs x hx).1, le_trans (hreqs x hx).2 hct.1⟩)
          (fun s hs => hwin s (List.mem_cons_of_mem _ hs)) i r hr
        have hno1 : ¬ (((reqs.length + i : Nat) : Int) < config.maxRequests) := by
          push_cast
          omega
        have hno2 : ¬ (((reqs.length + (i + 1) : Nat) : Int) < config.maxRequests) := by
          push_cast
          omega
        refine ⟨?_, ?_⟩
        · rw [hs, decide_eq_false hno1, decide_eq_false hno2]
        · rw [hrem, if_neg hno1, if_neg hno2]

/-! ### Claim C1 -/

/-- Claim C1, counterexample. With `maxRequests = 2`, `windowMs = 1000` and
monotone call times `0, 999, 1000, 1001`, all four calls are allowed (the
call at `1000` triggers the expired-`resetTime` branch, which discards the
log — including the timestamp `999` that pruning would have kept), so the
half-open window `(998, 1998]` contains three allowed calls, exceeding
`maxRequests`. -/
theorem bounded_admission_cex :
    allowedTimes { windowMs := 1000, maxRequests := 2 } none [0, 999, 1000, 1001]
      = [0, 999, 1000, 1001]
    ∧ countInWindow
        (allowedTimes { windowMs := 1000, maxRequests := 2 } none [0, 999, 1000, 1001])
        998 1000 = 3
    ∧ ¬ ((countInWindow
        (allowedTimes { windowMs := 1000, maxRequests := 2 } none [0, 999, 1000, 1001])
        998 1000 : Int) ≤ 2) := by
  decide

/-- Claim C1, amended: the bounded-admission guarantee holds as long as no
nominal-window reset fires — for every policy with `maxRequests = N > 0`
and `windowMs = W > 0` and every monotone sequence of call times that stays
within `W` of the first call (so the expired-`resetTime` branch, which
discards the log, is never taken), the number of `success = true` calls
inside any half-open interval `(t, t+W]` never exceeds `N`. At a
nominal-window boundary the code clears the request log, and the original
unrestricted claim fails (see the counterexample). -/
theorem bounded_admission_within_single_window (config : RateLimitConfig)
    (hW : 0 < config.windowMs) (hN : 0 < config.maxRequests) (t1 : Int) (ts : List Int)
    (hchain : List.Chain (· ≤ ·) t1 ts)
    (hwin : ∀ s ∈ ts, s < t1 + config.windowMs) (t : Int) :
    ((countInWindow (allowedTimes config none (t1 :: ts)) t config.windowMs : Int)
      ≤ config.maxRequests) := by
  have hunfold : allowedTimes config none (t1 :: ts)
      = t1 :: allowedTimes config (some ⟨1, t1 + config.windowMs, [t1]⟩) ts := by
    simp only [allowedTimes, checkLog_first config t1 hN, if_true]
  have hlen := allowedTimes_singleWindow config t1 ts t1 1 [t1] hW le_rfl hchain
    (by
      intro x hx
      simp only [List.mem_singleton] at hx
      exact ⟨hx.ge, hx.le⟩)
    hwin
  simp only [List.length_singleton] at hlen
  have hcount : countInWindow (allowedTimes config none (t1 :: ts)) t config.windowMs
      ≤ (allowedTimes config none (t1 :: ts)).length := by
    rw [countInWindow]
    exact List.length_filter_le _ _
  have hlist : (allowedTimes config none (t1 :: ts)).length
      = (allowedTimes config (some ⟨1, t1 + config.windowMs, [t1]⟩) ts).length + 1 := by
    rw [hunfold]
    simp
  omega

/-- Claim C1, witness for the amended theorem: three monotone calls inside
one window of a `2`-per-`1000 ms` policy admit at most 2 in any window. -/
theorem bounded_admission_within_single_window_witness :
    ((countInWindow
        (allowedTimes { windowMs := 1000, maxRequests := 2 } none [0, 1, 2]) 0 1000 : Int)
      ≤ 2) :=
  bounded_admission_within_single_window { windowMs := 1000, maxRequests := 2 }
    (by decide) (by decide) 0 [1, 2]
    (List.Chain.cons (by decide) (List.Chain.cons (by decide) List.Chain.nil))
    (by decide) 0

/-! ### Claim C3 -/

/-- Claim C3: on every `check(key, policy)` call, with `currentCount` the
number of timestamps retained after pruning — if
`currentCount ≥ maxRequests` the result is `success = false` with
`remaining = 0` and
`retryAfter = ceil((requests[0] + windowMs - now) / 1000)` seconds;
otherwise `now` is appended to the log and the result is `success = true`
with `remaining = maxRequests - currentCount - 1`. Hence consecutive calls
in an otherwise-empty window (monotone times inside one window of the
first call) are allowed with `remaining = N-1, N-2, …, 0` for the first
`N` calls and denied with `remaining = 0` from call `N+1` on. -/
theorem check_decision_fields_and_remaining_sequence :
    (∀ (optLog : Option RequestLog) (config : RateLimitConfig) (now oldest : Int)
        (rest : List Int),
      pruneRequests (effectiveLog optLog config now).requests config now = oldest :: rest →
      config.maxRequests ≤ ((oldest :: rest).length : Int) →
      (checkLog optLog config now).1
        = { success := false, limit := config.maxRequests, remaining := 0,
            reset := (effectiveLog optLog config now).resetTime,
            retryAfter := some (ceilDiv1000 (oldest + config.windowMs - now)) })
    ∧ (∀ (optLog : Option RequestLog) (config : RateLimitConfig) (now : Int),
        ((pruneRequests (effectiveLog optLog config now).requests config now).length : Int)
          < config.maxRequests →
        (checkLog optLog config now).1
          = { success := true, limit := config.maxRequests,
              remaining := config.maxRequests
                - (pruneRequests (effectiveLog optLog config now).requests config now).length
                - 1,
              reset := (effectiveLog optLog config now).resetTime, retryAfter := none }
        ∧ (checkLog optLog config now).2.requests
            = pruneRequests (effectiveLog optLog config now).requests config now ++ [now])
    ∧ (∀ (config : RateLimitConfig) (t1 : Int) (ts : List Int),
        0 < config.windowMs → 0 < config.maxRequests →
        List.Chain (· ≤ ·) t1 ts →
        (∀ s ∈ ts, s < t1 + config.windowMs) →
        ∀ i r, ((runChecks config none (t1 :: ts)).1)[i]? = some r →
          r.success = decide (((i : Nat) : Int) < config.maxRequests)
          ∧ r.remaining = if (((i : Nat) : Int) < config.maxRequests)
              then config.maxRequests - ((i : Nat) : Int) - 1 else 0) := by
  refine ⟨?_, ?_, ?_⟩
  · intro optLog config now oldest rest hpr hlen
    rw [checkLog_deny _ _ _ (by rw [hpr]; exact hlen)]
    rw [hpr]
    rfl
  · intro optLog config now hlen
    exact ⟨by rw [checkLog_allow _ _ _ hlen], by rw [checkLog_allow _ _ _ hlen]⟩
  · intro config t1 ts hW hN hchain hwin i r hr
    simp only [runChecks, checkLog_first config t1 hN] at hr
    match i with
    | 0 =>
      simp only [List.getElem?_cons_zero, Option.some.injEq] at hr
      subst hr
      refine ⟨(decide_eq_true (by exact_mod_cast hN)).symm, ?_⟩
      rw [if_pos (by exact_mod_cast hN)]
      simp
    | i + 1 =>
      simp only [List.getElem?_cons_succ] at hr
      have hrec := runChecks_singleWindow config t1 ts t1 1 [t1] hW le_rfl hchain
        (by
          intro x hx
          simp only [List.mem_singleton] at hx
          exact ⟨hx.ge, hx.le⟩)
        hwin i r hr
      rw [show ([t1] : List Int).length + i = i + 1 by simp; omega] at hrec
      exact hrec

/-- Claim C3, witness: the four results of a `3`-per-window policy driven
by calls at `0, 1, 2, 3` inside one window, read off at index 3 (the first
denial), via the theorem. -/
theorem check_decision_fields_and_remaining_sequence_witness :
    (checkLog none { windowMs := 1000, maxRequests := 3 } 0).1
      = { success := true, limit := 3, remaining := 2, reset := 1000, retryAfter := none } := by
  have h := check_decision_fields_and_remaining_sequence.2.1 none
    { windowMs := 1000, maxRequests := 3 } 0 (by decide)
  rw [h.1]
  decide

/-! ### Claim C4 -/

/-- One `check` step establishes the log invariant: starting from a log
whose timestamps are at most `now` and whose length is within the policy
bound, the stored-back log's timestamps lie in `(now - windowMs, now]` and
its length still respects the bound. -/
lemma checkLog_step_inv (config : RateLimitConfig) (hW : 0 < config.windowMs)
    (hN : 0 ≤ config.maxRequests) (optLog : Option RequestLog) (now : Int)
    (hle : ∀ l ∈ optLog, ∀ x ∈ l.requests, x ≤ now)
    (hlen : ∀ l ∈ optLog, (l.requests.length : Int) ≤ config.maxRequests) :
    (∀ x ∈ (checkLog optLog config now).2.requests,
        now - config.windowMs < x ∧ x ≤ now)
    ∧ (((checkLog optLog config now).2.requests.length : Int) ≤ config.maxRequests) := by
  have hle2 : ∀ x ∈ (effectiveLog optLog config now).requests, x ≤ now := by
    match optLog with
    | none => simp [effectiveLog, freshLog]
    | some log =>
      simp only [effectiveLog]
      by_cases hr : log.resetTime ≤ now
      · rw [if_pos hr]
        simp [freshLog]
      · rw [if_neg hr]
        exact hle log rfl
  have hlen2 : ((effectiveLog optLog config now).requests.length : Int)
      ≤ config.maxRequests := by
    match optLog with
    | none => simpa [effectiveLog, freshLog] using hN
    | some log =>
      simp only [effectiveLog]
      by_cases hr : log.resetTime ≤ now
      · rw [if_pos hr]
        simpa [freshLog] using hN
      · rw [if_neg hr]
        exact hlen log rfl
  have hmem : ∀ x ∈ pruneRequests (effectiveLog optLog config now).requests config now,
      now - config.windowMs < x ∧ x ≤ now := by
    intro x hx
    have h2 := mem_pruneRequests hx
    exact ⟨h2.2, hle2 x h2.1⟩
  have hprlen : ((pruneRequests (effectiveLog optLog config now).requests config now).length
      : Int) ≤ config.maxRequests := by
    have := List.length_filter_le
      (fun timestamp => decide (now - config.windowMs < timestamp))
      (effectiveLog optLog config now).requests
    rw [pruneRequests]
    omega
  by_cases hc : ((pruneRequests (effectiveLog optLog config now).requests config now).length
      : Int) < config.maxRequests
  · rw [checkLog_allow _ _ _ hc]
    refine ⟨?_, ?_⟩
    · intro x hx
      rcases List.mem_append.mp hx with h1 | h2
      · exact hmem x h1
      · simp only [List.mem_singleton] at h2
        exact ⟨by omega, h2.le⟩
    · simp only [List.length_append, List.length_singleton]
      push_cast
      omega
  · rw [checkLog_deny _ _ _ (not_lt.mp hc)]
    exact ⟨hmem, hprlen⟩

/-- Threaded over a monotone sequence of calls ending at time `t`, the log
left in the store satisfies the window-containment and size invariants
relative to the last call. -/
lemma runChecks_last_inv (config : RateLimitConfig) (hW : 0 < config.windowMs)
    (hN : 0 ≤ config.maxRequests) :
    ∀ (ts : List Int) (t : Int) (optLog : Option RequestLog) (tprev : Int),
      (∀ l ∈ optLog, ∀ x ∈ l.requests, x ≤ tprev) →
      (∀ l ∈ optLog, (l.requests.length : Int) ≤ config.maxRequests) →
      List.Chain (· ≤ ·) tprev (ts ++ [t]) →
      ∀ log, (runChecks config optLog (ts ++ [t])).2 = some log →
        (∀ x ∈ log.requests, t - config.windowMs < x ∧ x ≤ t)
        ∧ ((log.requests.length : Int) ≤ config.maxRequests) := by
  intro ts
  induction ts with
  | nil =>
    intro t optLog tprev hle hlen hchain log hrun
    have hct := List.chain_cons.mp hchain
    simp only [List.nil_append, runChecks, Option.some.injEq] at hrun
    subst hrun
    exact checkLog_step_inv config hW hN optLog t
      (fun l hl x hx => le_trans (hle l hl x hx) hct.1) hlen
  | cons s ss ih =>
    intro t optLog tprev hle hlen hchain log hrun
    rw [List.cons_append] at hchain
    have hct := List.chain_cons.mp hchain
    simp only [List.cons_append, runChecks] at hrun
    have hstep := checkLog_step_inv config hW hN optLog s
      (fun l hl x hx => le_trans (hle l hl x hx) hct.1) hlen
    exact ih t (some (checkLog optLog config s).2) s
      (fun l hl x hx => by
        rw [Option.some_inj.mp hl.symm] at hx
        exact (hstep.1 x hx).2)
      (fun l hl => by
        rw [Option.some_inj.mp hl.symm]
        exact hstep.2)
      hct.2 log hrun

/-- Claim C4: immediately after any `check(key, policy)` call of a
monotone-time run (fixed policy, `windowMs > 0`, `maxRequests ≥ 0`,
starting from no log), every timestamp retained in the key's log lies in
`(now - windowMs, now]` for `now` the time of that last call, and the log
holds at most `maxRequests` entries. -/
theorem log_invariant_after_check (config : RateLimitConfig) (hW : 0 < config.windowMs)
    (hN : 0 ≤ config.maxRequests) (ts : List Int) (t : Int)
    (hchain : List.Chain' (· ≤ ·) (ts ++ [t])) (log : RequestLog)
    (hrun : (runChecks config none (ts ++ [t])).2 = some log) :
    (∀ x ∈ log.requests, t - config.windowMs < x ∧ x ≤ t)
    ∧ ((log.requests.length : Int) ≤ config.maxRequests) := by
  match ts with
  | [] =>
    exact runChecks_last_inv config hW hN [] t none t (by simp) (by simp)
      (List.chain_cons.mpr ⟨le_refl t, List.Chain.nil⟩) log hrun
  | s :: ss =>
    have hchain2 : List.Chain (· ≤ ·) s (ss ++ [t]) := hchain
    exact runChecks_last_inv config hW hN (s :: ss) t none s (by simp) (by simp)
      (List.chain_cons.mpr ⟨le_refl s, hchain2⟩) log hrun

/-- Claim C4, witness: calls at `0, 1, 5` under a `2`-per-`1000 ms` policy
leave the log `[0, 1]` (third call denied), whose entries are inside
`(5 - 1000, 5]` and number at most 2. -/
theorem log_invariant_after_check_witness :
    (∀ x ∈ ({ count := 2, resetTime := 1000, requests := [0, 1] } : RequestLog).requests,
        5 - (1000 : Int) < x ∧ x ≤ 5)
    ∧ ((({ count := 2, resetTime := 1000, requests := [0, 1] } : RequestLog).requests.length
        : Int) ≤ 2) :=
  log_invariant_after_check { windowMs := 1000, maxRequests := 2 } (by decide) (by decide)
    [0, 1] 5
    (List.Chain.cons (by decide) (List.Chain.cons (by decide) List.Chain.nil))
    { count := 2, resetTime := 1000, requests := [0, 1] } (by decide)

end DesignSight
